import Mathlib

/-!
Shallow embedding of the heatmap data pipeline
(src/heatmap-js/create_interactive_heatmap.js): the CSV parser
(parseCSV), the aggregation and ranking stage
(sortCandidatesByPerformance), and the summary statistics computed in
main and generateHTML.  JavaScript strings are modelled as Lean
strings and lists of characters; JavaScript numbers as Lean Int
(machine-float precision limits are outside the claims checked here);
a non-finite rate (NaN or Infinity, produced by dividing by zero) is
modelled as the value none of Option Rat.  JavaScript object key order
is modelled faithfully: array-index-like keys come first in ascending
numeric order, then the remaining keys in insertion order.  Array
reads out of range yield undefined in JavaScript and make sums NaN;
they are modelled by List.getD with default 0, and every theorem about
sums carries a rectangularity hypothesis that keeps all reads in
range.
-/

/-- JavaScript String.prototype.trim on the character list: drop the
whitespace on both ends. -/
def jsTrim (cs : List Char) : List Char :=
  ((cs.dropWhile Char.isWhitespace).reverse.dropWhile Char.isWhitespace).reverse

/-- JavaScript String.prototype.split with a one-character separator:
always returns at least one (possibly empty) field. -/
def splitFields (sep : Char) : List Char → List (List Char)
  | [] => [[]]
  | c :: cs =>
    match splitFields sep cs with
    | [] => if c = sep then [[], []] else [[c]]
    | f :: fs => if c = sep then [] :: f :: fs else (c :: f) :: fs

/-- Value of a character as a digit in the given radix, none when the
character is not a digit of that radix. -/
def digitValue (radix : Nat) (c : Char) : Option Nat :=
  let v : Option Nat :=
    if '0' ≤ c ∧ c ≤ '9' then some (c.toNat - 48)
    else if 'a' ≤ c ∧ c ≤ 'z' then some (c.toNat - 87)
    else if 'A' ≤ c ∧ c ≤ 'Z' then some (c.toNat - 55)
    else none
  match v with
  | some d => if d < radix then some d else none
  | none => none

/-- JavaScript parseInt(s) followed by the || 0 coercion of line 33 of
the source: skip leading whitespace, read an optional sign, switch to
radix 16 after a 0x or 0X prefix (radix 10 otherwise), take the
longest run of digits of the radix; no digits (NaN) and the value 0
both give 0. -/
def parseIntOr0 (s : String) : Int :=
  let cs := s.toList.dropWhile (fun c => c.isWhitespace)
  let signAndRest : Int × List Char :=
    match cs with
    | '-' :: rest => (-1, rest)
    | '+' :: rest => (1, rest)
    | _ => (1, cs)
  let radixAndRest : Nat × List Char :=
    match signAndRest.2 with
    | '0' :: 'x' :: rest => (16, rest)
    | '0' :: 'X' :: rest => (16, rest)
    | _ => (10, signAndRest.2)
  let digs := radixAndRest.2.takeWhile (fun c => (digitValue radixAndRest.1 c).isSome)
  if digs.isEmpty then 0
  else signAndRest.1 *
    ((digs.foldl (fun acc c => acc * radixAndRest.1 + ((digitValue radixAndRest.1 c).getD 0)) 0 : Nat) : Int)

/-- The three reserved header names excluded from candidate columns
(line 20 of the source). -/
def reservedHeaders : List String := ["Challenge", "Created_At", "Difficulty"]

/-- The candidate columns: every header field that is not one of the
reserved names, wherever it appears (lines 19 to 21). -/
def candidateColsOf (headers : List String) : List String :=
  headers.filter (fun col => !(reservedHeaders.contains col))

/-- One data line (lines 27 to 35): field 1 is the challenge label;
the values are the fields from index 3 on, parsed by parseIntOr0.  A
line with fewer than four fields yields the fields it has. -/
def parseLine (line : List Char) : String × List Int :=
  let values := splitFields ',' line
  (String.mk (values.headD []), (values.drop 3).map (fun f => parseIntOr0 (String.mk f)))

/-- The result of parseCSV: the value matrix, the row labels and the
candidate column labels. -/
structure ParseResult where
  data : List (List Int)
  challengeLabels : List String
  candidateCols : List String
  deriving Repr, DecidableEq

/-- parseCSV (lines 14 to 39): trim the content, split into lines,
read the header from line 1 and the data rows from the rest. -/
def parseCSV (csvContent : String) : ParseResult :=
  let lines := splitFields '\n' (jsTrim csvContent.toList)
  let headers := (splitFields ',' (lines.headD [])).map String.mk
  let candidateCols := candidateColsOf headers
  let rows := (lines.drop 1).map parseLine
  ⟨rows.map Prod.snd, rows.map Prod.fst, candidateCols⟩

/-- Sum of column idx over all rows (line 45 of the source:
data.reduce((sum, row) => sum + row[index], 0)).  An out-of-range read
is undefined (NaN) in JavaScript; it is modelled as 0 and every
theorem using colSum keeps reads in range by hypothesis. -/
def colSum (data : List (List Int)) (idx : Nat) : Int :=
  data.foldl (fun s row => s + row.getD idx 0) 0

/-- JavaScript object property write m[k] = v: overwrite in place when
the key exists, append otherwise. -/
def jsObjectInsert (m : List (String × Int)) (k : String) (v : Int) : List (String × Int) :=
  if m.any (fun p => p.1 == k) then m.map (fun p => if p.1 == k then (k, v) else p)
  else m ++ [(k, v)]

/-- The candidateSums object built by the forEach of lines 44 to 46,
tracking the column index. -/
def candidateSumsAux (data : List (List Int)) : Nat → List String → List (String × Int) → List (String × Int)
  | _, [], m => m
  | i, c :: cs, m => candidateSumsAux data (i + 1) cs (jsObjectInsert m c (colSum data i))

/-- The aggregation engine (lines 43 to 46): per-candidate column sums
as an insertion-ordered association list. -/
def candidateSumsOf (data : List (List Int)) (candidateCols : List String) : List (String × Int) :=
  candidateSumsAux data 0 candidateCols []

/-- Decimal value of a key made of digits, for array-index ordering of
object keys. -/
def keyNatValue (s : String) : Nat :=
  s.toList.foldl (fun a c => a * 10 + (c.toNat - 48)) 0

/-- Whether a string is a JavaScript array-index key: the canonical
decimal form of an integer below 2 ^ 32 - 1.  Such keys are enumerated
first, in ascending numeric order. -/
def isArrayIndexKey (s : String) : Bool :=
  let cs := s.toList
  (!cs.isEmpty) && cs.all (fun c => c.isDigit) &&
    (s == "0" || cs.headD '0' ≠ '0') && keyNatValue s < 4294967295

/-- Insert into a list sorted by the integer key, after every element
whose key is less than or equal: the insertion step of a stable
ascending sort. -/
def sortedInsertBy (key : α → Int) (x : α) : List α → List α
  | [] => [x]
  | y :: ys => if key x ≤ key y then x :: y :: ys else y :: sortedInsertBy key x ys

/-- Stable ascending insertion sort by an integer key: extensionally
the sort of line 50 of the source, Array.prototype.sort with
comparator (a, b) => a - b, which ECMAScript requires to be stable. -/
def stableSortBy (key : α → Int) : List α → List α
  | [] => []
  | x :: xs => sortedInsertBy key x (stableSortBy key xs)

/-- JavaScript Object.entries order: array-index keys first in
ascending numeric order, then the remaining keys in insertion
order. -/
def jsEntries (m : List (String × Int)) : List (String × Int) :=
  stableSortBy (fun e => (keyNatValue e.1 : Int)) (m.filter (fun e => isArrayIndexKey e.1))
    ++ m.filter (fun e => !isArrayIndexKey e.1)

/-- The result of sortCandidatesByPerformance. -/
structure SortResult where
  sortedData : List (List Int)
  sortedCandidates : List String
  candidateSums : List (String × Int)
  deriving Repr, DecidableEq

/-- sortCandidatesByPerformance (lines 41 to 62): aggregate, sort the
score entries ascending, and rebuild every row by looking each sorted
candidate up with indexOf in the original column list (lines 53 to
59). -/
def sortCandidatesByPerformance (data : List (List Int)) (candidateCols : List String) : SortResult :=
  let candidateSums := candidateSumsOf data candidateCols
  let sortedCandidates := (stableSortBy (fun e => e.2) (jsEntries candidateSums)).map Prod.fst
  let sortedData := data.map (fun row =>
    sortedCandidates.map (fun candidate => row.getD (candidateCols.indexOf candidate) 0))
  ⟨sortedData, sortedCandidates, candidateSums⟩

/-- Lookup in the score object: the value at the first entry bearing
the key. -/
def jsLookup (m : List (String × Int)) (k : String) : Option Int :=
  (m.find? (fun p => p.1 == k)).map Prod.snd

/-- The overall success rate of line 65 of the source:
totalSolutions / (totalChallenges * totalCandidates) * 100.  A zero
denominator gives NaN or Infinity in JavaScript, modelled as none. -/
def overallSuccessRate (totalSolutions : Int) (totalChallenges totalCandidates : Nat) : Option Rat :=
  if totalChallenges * totalCandidates = 0 then none
  else some ((totalSolutions : Rat) / ((totalChallenges * totalCandidates : Nat) : Rat) * 100)

/-- The summary statistics computed in main (lines 137 to 143) and
generateHTML (line 65). -/
structure SummaryStats where
  totalChallenges : Nat
  totalCandidates : Nat
  totalSolutions : Int
  overallRate : Option Rat
  deriving DecidableEq

/-- End-to-end summary of an input text: parse, aggregate, and take
totalChallenges = data.length, totalCandidates = candidateCols.length,
totalSolutions = the sum of Object.values(candidateSums), and the
overall rate of line 65. -/
def mainSummary (csv : String) : SummaryStats :=
  let p := parseCSV csv
  let r := sortCandidatesByPerformance p.data p.candidateCols
  let totalChallenges := p.data.length
  let totalCandidates := p.candidateCols.length
  let totalSolutions := (jsEntries r.candidateSums).foldl (fun s e => s + e.2) 0
  ⟨totalChallenges, totalCandidates, totalSolutions,
    overallSuccessRate totalSolutions totalChallenges totalCandidates⟩


/-! ### Helper lemmas -/

/-- Normal form of the candidateSums object when the column labels are
distinct: one entry per column, in column order, valued by colSum. -/
def sumsFrom (data : List (List Int)) : Nat → List String → List (String × Int)
  | _, [] => []
  | i, c :: cs => (c, colSum data i) :: sumsFrom data (i + 1) cs

theorem jsObjectInsert_of_not_mem {m : List (String × Int)} {k : String} {v : Int}
    (h : m.any (fun p => p.1 == k) = false) : jsObjectInsert m k v = m ++ [(k, v)] := by
  simp [jsObjectInsert, h]

theorem candidateSumsAux_eq_append (data : List (List Int)) :
    ∀ (cs : List String) (i : Nat) (m : List (String × Int)), cs.Nodup →
      (∀ c ∈ cs, m.any (fun p => p.1 == c) = false) →
      candidateSumsAux data i cs m = m ++ sumsFrom data i cs := by
  intro cs
  induction cs with
  | nil => intro i m _ _; simp [candidateSumsAux, sumsFrom]
  | cons c cs ih =>
    intro i m hnd hm
    have hc : m.any (fun p => p.1 == c) = false := hm c (by simp)
    have hstep : candidateSumsAux data i (c :: cs) m =
        candidateSumsAux data (i + 1) cs (m ++ [(c, colSum data i)]) := by
      simp [candidateSumsAux, jsObjectInsert_of_not_mem hc]
    rw [hstep]
    have hnd' : cs.Nodup := hnd.of_cons
    have hnotmem : c ∉ cs := by
      intro hmem
      exact (List.nodup_cons.mp hnd).1 hmem
    have hm' : ∀ c' ∈ cs, (m ++ [(c, colSum data i)]).any (fun p => p.1 == c') = false := by
      intro c' hc'
      have h1 : m.any (fun p => p.1 == c') = false := hm c' (by simp [hc'])
      have h2 : c ≠ c' := fun h => hnotmem (h ▸ hc')
      simp [List.any_append, h1, h2]
    rw [ih (i + 1) (m ++ [(c, colSum data i)]) hnd' hm']
    simp [sumsFrom]

theorem candidateSumsOf_eq_sumsFrom (data : List (List Int)) {cols : List String}
    (h : cols.Nodup) : candidateSumsOf data cols = sumsFrom data 0 cols := by
  have := candidateSumsAux_eq_append data cols 0 [] h (by intro c _; simp)
  simpa [candidateSumsOf] using this

theorem map_fst_sumsFrom (data : List (List Int)) :
    ∀ (i : Nat) (cs : List String), (sumsFrom data i cs).map Prod.fst = cs := by
  intro i cs
  induction cs generalizing i with
  | nil => simp [sumsFrom]
  | cons c cs ih => simp [sumsFrom, ih]

theorem perm_sortedInsertBy {α : Type} (key : α → Int) (x : α) :
    ∀ l : List α, (sortedInsertBy key x l).Perm (x :: l) := by
  intro l
  induction l with
  | nil => simp [sortedInsertBy]
  | cons y ys ih =>
    by_cases h : key x ≤ key y
    · simp [sortedInsertBy, h]
    · simp only [sortedInsertBy, if_neg h]
      exact (ih.cons y).trans (List.Perm.swap x y ys)

theorem perm_stableSortBy {α : Type} (key : α → Int) :
    ∀ l : List α, (stableSortBy key l).Perm l := by
  intro l
  induction l with
  | nil => simp [stableSortBy]
  | cons x xs ih =>
    exact (perm_sortedInsertBy key x (stableSortBy key xs)).trans (ih.cons x)

theorem perm_jsEntries (m : List (String × Int)) : (jsEntries m).Perm m := by
  unfold jsEntries
  have h1 := perm_stableSortBy (fun e : String × Int => (keyNatValue e.1 : Int))
    (m.filter (fun e => isArrayIndexKey e.1))
  have h2 := List.filter_append_perm (fun e : String × Int => isArrayIndexKey e.1) m
  exact (h1.append_right _).trans h2

theorem pairwise_sortedInsertBy {α : Type} (key : α → Int) (x : α) :
    ∀ l : List α, l.Pairwise (fun a b => key a ≤ key b) →
      (sortedInsertBy key x l).Pairwise (fun a b => key a ≤ key b) := by
  intro l
  induction l with
  | nil => intro _; simp [sortedInsertBy]
  | cons y ys ih =>
    intro hp
    have hys := hp.of_cons
    have hyall : ∀ b ∈ ys, key y ≤ key b := (List.pairwise_cons.mp hp).1
    by_cases h : key x ≤ key y
    · simp only [sortedInsertBy, if_pos h]
      refine List.Pairwise.cons ?_ hp
      intro b hb
      rcases List.mem_cons.mp hb with rfl | hb
      · exact h
      · exact le_trans h (hyall b hb)
    · simp only [sortedInsertBy, if_neg h]
      refine List.Pairwise.cons ?_ (ih hys)
      intro b hb
      have hb' : b ∈ x :: ys := (perm_sortedInsertBy key x ys).mem_iff.mp hb
      rcases List.mem_cons.mp hb' with rfl | hb'
      · exact le_of_not_le h
      · exact hyall b hb'

theorem pairwise_stableSortBy {α : Type} (key : α → Int) :
    ∀ l : List α, (stableSortBy key l).Pairwise (fun a b => key a ≤ key b) := by
  intro l
  induction l with
  | nil => simp [stableSortBy]
  | cons x xs ih => exact pairwise_sortedInsertBy key x (stableSortBy key xs) ih

theorem filter_sortedInsertBy {α : Type} (key : α → Int) (v : Int) (x : α) :
    ∀ l : List α, (sortedInsertBy key x l).filter (fun e => key e == v) =
      (x :: l).filter (fun e => key e == v) := by
  intro l
  induction l with
  | nil => simp [sortedInsertBy]
  | cons y ys ih =>
    by_cases h : key x ≤ key y
    · simp [sortedInsertBy, h]
    · have hlt : key y < key x := lt_of_not_le h
      simp only [sortedInsertBy, if_neg h]
      by_cases hy : key y = v
      · have hx : ¬ key x = v := by
          intro hx
          exact absurd (hx.trans hy.symm) (ne_of_gt hlt)
        simp only [List.filter_cons, ih]
        simp [hx, hy]
      · simp only [List.filter_cons, ih]
        by_cases hx : key x = v <;> simp [hx, hy]

theorem filter_stableSortBy {α : Type} (key : α → Int) (v : Int) :
    ∀ l : List α, (stableSortBy key l).filter (fun e => key e == v) =
      l.filter (fun e => key e == v) := by
  intro l
  induction l with
  | nil => simp [stableSortBy]
  | cons x xs ih =>
    calc (sortedInsertBy key x (stableSortBy key xs)).filter (fun e => key e == v)
        = (x :: stableSortBy key xs).filter (fun e => key e == v) :=
          filter_sortedInsertBy key v x (stableSortBy key xs)
      _ = (x :: xs).filter (fun e => key e == v) := by
          by_cases hx : key x = v <;> simp [List.filter_cons, hx, ih]

theorem jsLookup_sumsFrom_of_mem (data : List (List Int)) {L : String} :
    ∀ (cs : List String) (i : Nat), L ∈ cs →
      jsLookup (sumsFrom data i cs) L = some (colSum data (i + cs.indexOf L)) := by
  intro cs
  induction cs with
  | nil => intro i h; simp at h
  | cons c cs ih =>
    intro i h
    by_cases hc : c = L
    · subst hc
      simp [jsLookup, sumsFrom, List.find?, List.indexOf_cons_self]
    · have hmem : L ∈ cs := by
        rcases List.mem_cons.mp h with h' | h'
        · exact absurd h'.symm hc
        · exact h'
      have hne : (c == L) = false := by simp [hc]
      have hidx : (c :: cs).indexOf L = cs.indexOf L + 1 := by
        simp [List.indexOf_cons, hne]
      rw [hidx]
      have harg : i + (cs.indexOf L + 1) = (i + 1) + cs.indexOf L := by omega
      rw [harg]
      have := ih (i + 1) hmem
      simp only [jsLookup, sumsFrom, List.find?, hne] at this ⊢
      exact this

theorem jsLookup_sumsFrom_of_not_mem (data : List (List Int)) {L : String} :
    ∀ (cs : List String) (i : Nat), L ∉ cs → jsLookup (sumsFrom data i cs) L = none := by
  intro cs
  induction cs with
  | nil => intro i _; simp [jsLookup, sumsFrom]
  | cons c cs ih =>
    intro i h
    have hc : (c == L) = false := by
      simp only [beq_eq_false_iff_ne, ne_eq]
      intro hc
      exact h (hc ▸ List.mem_cons_self c cs)
    have hmem : L ∉ cs := fun hm => h (List.mem_cons_of_mem c hm)
    simp only [jsLookup, sumsFrom, List.find?, hc]
    exact ih (i + 1) hmem

theorem getD_map_of_lt {α β : Type} (f : α → β) (l : List α) (i : Nat) (h : i < l.length)
    (d : β) (e : α) : (l.map f).getD i d = f (l.getD i e) := by
  have h2 : i < (l.map f).length := by simpa using h
  rw [List.getD_eq_getElem _ _ h2, List.getD_eq_getElem _ _ h, List.getElem_map]

theorem sortedCandidates_perm (data : List (List Int)) {cols : List String}
    (h : cols.Nodup) : (sortCandidatesByPerformance data cols).sortedCandidates.Perm cols := by
  have h1 : ((stableSortBy (fun e : String × Int => e.2)
      (jsEntries (candidateSumsOf data cols))).map Prod.fst).Perm
      ((candidateSumsOf data cols).map Prod.fst) :=
    ((perm_stableSortBy _ _).trans (perm_jsEntries _)).map Prod.fst
  have h3 : (candidateSumsOf data cols).map Prod.fst = cols := by
    rw [candidateSumsOf_eq_sumsFrom data h, map_fst_sumsFrom]
  rw [h3] at h1
  exact h1

theorem getD_mem_of_lt {α : Type} (l : List α) (i : Nat) (h : i < l.length) (d : α) :
    l.getD i d ∈ l := by
  rw [List.getD_eq_getElem _ _ h]
  exact List.getElem_mem h

theorem indexOf_lt_length_of_mem {l : List String} {a : String} (h : a ∈ l) :
    l.indexOf a < l.length := by
  induction l with
  | nil => simp at h
  | cons b bs ih =>
    by_cases hb : b = a
    · subst hb; simp [List.indexOf_cons_self]
    · have hne : (b == a) = false := by simp [hb]
      have hmem : a ∈ bs := by
        rcases List.mem_cons.mp h with h' | h'
        · exact absurd h'.symm hb
        · exact h'
      simp only [List.indexOf_cons, hne, cond_false, List.length_cons]
      exact Nat.succ_lt_succ (ih hmem)

theorem getD_indexOf_self {l : List String} {a : String} (h : a ∈ l) (d : String) :
    l.getD (l.indexOf a) d = a := by
  induction l with
  | nil => simp at h
  | cons b bs ih =>
    by_cases hb : b = a
    · subst hb; simp [List.indexOf_cons_self]
    · have hne : (b == a) = false := by simp [hb]
      have hmem : a ∈ bs := by
        rcases List.mem_cons.mp h with h' | h'
        · exact absurd h'.symm hb
        · exact h'
      simp only [List.indexOf_cons, hne, cond_false]
      simpa using ih hmem

theorem sortedData_getD (data : List (List Int)) (cols : List String)
    (rI i : Nat) (hr : rI < data.length)
    (hi : i < (sortCandidatesByPerformance data cols).sortedCandidates.length) :
    ((sortCandidatesByPerformance data cols).sortedData.getD rI []).getD i 0 =
      (data.getD rI []).getD
        (cols.indexOf ((sortCandidatesByPerformance data cols).sortedCandidates.getD i "")) 0 := by
  have h1 : ((sortCandidatesByPerformance data cols).sortedData.getD rI []) =
      (sortCandidatesByPerformance data cols).sortedCandidates.map
        (fun candidate => (data.getD rI []).getD (cols.indexOf candidate) 0) := by
    exact getD_map_of_lt _ data rI hr [] []
  rw [h1]
  exact getD_map_of_lt _ _ i hi 0 ""

theorem colSum_sortedData (data : List (List Int)) (cols : List String) (i : Nat)
    (hi : i < (sortCandidatesByPerformance data cols).sortedCandidates.length) :
    colSum (sortCandidatesByPerformance data cols).sortedData i =
      colSum data
        (cols.indexOf ((sortCandidatesByPerformance data cols).sortedCandidates.getD i "")) := by
  show colSum (data.map (fun row =>
      (sortCandidatesByPerformance data cols).sortedCandidates.map
        (fun candidate => row.getD (cols.indexOf candidate) 0))) i = _
  unfold colSum
  rw [List.foldl_map]
  congr 1
  funext s row
  congr 1
  exact getD_map_of_lt _ _ i hi 0 ""

theorem sortedData_row_length (data : List (List Int)) (cols : List String) :
    ∀ row ∈ (sortCandidatesByPerformance data cols).sortedData,
      row.length = (sortCandidatesByPerformance data cols).sortedCandidates.length := by
  intro row hrow
  have hrow' : row ∈ data.map (fun row =>
      (sortCandidatesByPerformance data cols).sortedCandidates.map
        (fun candidate => row.getD (cols.indexOf candidate) 0)) := hrow
  rcases List.mem_map.mp hrow' with ⟨row0, _, hEq⟩
  rw [← hEq, List.length_map]

/-! ### Claim theorems -/

/-- C1: for every parsed input whose candidate labels are distinct and
whose rows all have one value per candidate column, the ranking stage
applies one and the same column permutation to the label sequence and
to every row: the reordered labels are a permutation of the original
ones, the label at position i is the original column label at index
cols.indexOf of it, the value at position i of every reordered row is
the original value of exactly that column, and the reordered label
count equals the length of every reordered row.  The two hypotheses
restrict the statement to well-formed parses, where the JavaScript
array reads in the source are all in range. -/
theorem claim1_ranking_single_permutation (data : List (List Int)) (cols : List String)
    (hnd : cols.Nodup) (hrect : ∀ row ∈ data, row.length = cols.length) :
    (sortCandidatesByPerformance data cols).sortedCandidates.Perm cols ∧
    (sortCandidatesByPerformance data cols).sortedCandidates.length = cols.length ∧
    (∀ row ∈ (sortCandidatesByPerformance data cols).sortedData,
      row.length = (sortCandidatesByPerformance data cols).sortedCandidates.length) ∧
    (∀ i, i < (sortCandidatesByPerformance data cols).sortedCandidates.length →
      cols.getD (cols.indexOf
          ((sortCandidatesByPerformance data cols).sortedCandidates.getD i "")) "" =
        (sortCandidatesByPerformance data cols).sortedCandidates.getD i "") ∧
    (∀ rI i, rI < data.length →
      i < (sortCandidatesByPerformance data cols).sortedCandidates.length →
      ((sortCandidatesByPerformance data cols).sortedData.getD rI []).getD i 0 =
        (data.getD rI []).getD
          (cols.indexOf ((sortCandidatesByPerformance data cols).sortedCandidates.getD i "")) 0) := by
  have hperm := sortedCandidates_perm data hnd
  refine ⟨hperm, hperm.length_eq, sortedData_row_length data cols, ?_, ?_⟩
  · intro i hi
    have hmem : (sortCandidatesByPerformance data cols).sortedCandidates.getD i "" ∈ cols :=
      hperm.mem_iff.mp (getD_mem_of_lt _ i hi "")
    exact getD_indexOf_self hmem ""
  · intro rI i hr hi
    exact sortedData_getD data cols rI i hr hi

theorem claim1_witness :
    ((["A", "B", "C"] : List String).Nodup ∧
      (∀ row ∈ ([[1, 0, 1], [0, 0, 1]] : List (List Int)),
        row.length = (["A", "B", "C"] : List String).length)) ∧
    ((sortCandidatesByPerformance [[1, 0, 1], [0, 0, 1]] ["A", "B", "C"]).sortedCandidates.Perm
        ["A", "B", "C"] ∧
      (sortCandidatesByPerformance [[1, 0, 1], [0, 0, 1]] ["A", "B", "C"]).sortedCandidates.length =
        (["A", "B", "C"] : List String).length ∧
      (∀ row ∈ (sortCandidatesByPerformance [[1, 0, 1], [0, 0, 1]] ["A", "B", "C"]).sortedData,
        row.length =
          (sortCandidatesByPerformance [[1, 0, 1], [0, 0, 1]] ["A", "B", "C"]).sortedCandidates.length) ∧
      (∀ i, i <
          (sortCandidatesByPerformance [[1, 0, 1], [0, 0, 1]] ["A", "B", "C"]).sortedCandidates.length →
        (["A", "B", "C"] : List String).getD ((["A", "B", "C"] : List String).indexOf
            ((sortCandidatesByPerformance [[1, 0, 1], [0, 0, 1]] ["A", "B", "C"]).sortedCandidates.getD i "")) "" =
          (sortCandidatesByPerformance [[1, 0, 1], [0, 0, 1]] ["A", "B", "C"]).sortedCandidates.getD i "") ∧
      (∀ rI i, rI < ([[1, 0, 1], [0, 0, 1]] : List (List Int)).length →
        i < (sortCandidatesByPerformance [[1, 0, 1], [0, 0, 1]] ["A", "B", "C"]).sortedCandidates.length →
        ((sortCandidatesByPerformance [[1, 0, 1], [0, 0, 1]] ["A", "B", "C"]).sortedData.getD rI []).getD i 0 =
          (([[1, 0, 1], [0, 0, 1]] : List (List Int)).getD rI []).getD
            ((["A", "B", "C"] : List String).indexOf
              ((sortCandidatesByPerformance [[1, 0, 1], [0, 0, 1]] ["A", "B", "C"]).sortedCandidates.getD i "")) 0)) :=
  ⟨⟨by decide, by decide⟩,
    claim1_ranking_single_permutation [[1, 0, 1], [0, 0, 1]] ["A", "B", "C"] (by decide) (by decide)⟩

/-- C7: running the aggregation engine on the reordered matrix and
reordered labels assigns every column label the same score as on the
original matrix and labels, for parsed inputs with distinct candidate
labels and rectangular rows (the region where every JavaScript array
read of the source is in range). -/
theorem claim7_aggregation_order_independent (data : List (List Int)) (cols : List String)
    (hnd : cols.Nodup) (hrect : ∀ row ∈ data, row.length = cols.length) :
    ∀ L : String,
      jsLookup (candidateSumsOf (sortCandidatesByPerformance data cols).sortedData
        (sortCandidatesByPerformance data cols).sortedCandidates) L =
      jsLookup (candidateSumsOf data cols) L := by
  have hperm := sortedCandidates_perm data hnd
  have hnd' : (sortCandidatesByPerformance data cols).sortedCandidates.Nodup :=
    hperm.nodup_iff.mpr hnd
  intro L
  by_cases hL : L ∈ cols
  · have hLsc : L ∈ (sortCandidatesByPerformance data cols).sortedCandidates :=
      hperm.mem_iff.mpr hL
    rw [candidateSumsOf_eq_sumsFrom _ hnd', candidateSumsOf_eq_sumsFrom _ hnd]
    rw [jsLookup_sumsFrom_of_mem _ _ 0 hLsc, jsLookup_sumsFrom_of_mem _ _ 0 hL]
    simp only [Nat.zero_add]
    congr 1
    have hidx : (sortCandidatesByPerformance data cols).sortedCandidates.indexOf L <
        (sortCandidatesByPerformance data cols).sortedCandidates.length :=
      indexOf_lt_length_of_mem hLsc
    rw [colSum_sortedData data cols _ hidx, getD_indexOf_self hLsc]
  · have hLsc : L ∉ (sortCandidatesByPerformance data cols).sortedCandidates :=
      fun h => hL (hperm.mem_iff.mp h)
    rw [candidateSumsOf_eq_sumsFrom _ hnd', candidateSumsOf_eq_sumsFrom _ hnd]
    rw [jsLookup_sumsFrom_of_not_mem _ _ 0 hLsc, jsLookup_sumsFrom_of_not_mem _ _ 0 hL]

theorem claim7_witness :
    ((["A", "B", "C"] : List String).Nodup ∧
      (∀ row ∈ ([[1, 0, 1], [0, 0, 1]] : List (List Int)),
        row.length = (["A", "B", "C"] : List String).length)) ∧
    (∀ L : String,
      jsLookup (candidateSumsOf
        (sortCandidatesByPerformance [[1, 0, 1], [0, 0, 1]] ["A", "B", "C"]).sortedData
        (sortCandidatesByPerformance [[1, 0, 1], [0, 0, 1]] ["A", "B", "C"]).sortedCandidates) L =
      jsLookup (candidateSumsOf [[1, 0, 1], [0, 0, 1]] ["A", "B", "C"]) L) :=
  ⟨⟨by decide, by decide⟩,
    claim7_aggregation_order_independent [[1, 0, 1], [0, 0, 1]] ["A", "B", "C"] (by decide) (by decide)⟩

/-- C2 counterexample: with header order B then A and both columns
scoring 1, the code outputs B before A (the comparator of line 50
compares scores only and the sort is stable), not A before B as the
lexicographic-tiebreak claim requires. -/
theorem claim2_counterexample :
    (sortCandidatesByPerformance
      (parseCSV "Challenge,Created_At,Difficulty,B,A\nx,t,d,1,1").data
      (parseCSV "Challenge,Created_At,Difficulty,B,A\nx,t,d,1,1").candidateCols).sortedCandidates =
      ["B", "A"] ∧
    (["B", "A"] : List String) ≠ ["A", "B"] := by decide

/-- C2 amended: the ranking sorts the score entries ascending by score
only; entries with equal scores keep their relative order in the score
object enumeration (for ordinary labels, the header insertion order),
with no lexicographic label tiebreak. -/
theorem claim2_amended_stable_score_sort (data : List (List Int)) (cols : List String) :
    (sortCandidatesByPerformance data cols).sortedCandidates =
      (stableSortBy (fun e : String × Int => e.2) (jsEntries (candidateSumsOf data cols))).map
        Prod.fst ∧
    (stableSortBy (fun e : String × Int => e.2)
      (jsEntries (candidateSumsOf data cols))).Pairwise (fun a b => a.2 ≤ b.2) ∧
    (∀ v : Int, (stableSortBy (fun e : String × Int => e.2)
        (jsEntries (candidateSumsOf data cols))).filter (fun e => e.2 == v) =
      (jsEntries (candidateSumsOf data cols)).filter (fun e => e.2 == v)) :=
  ⟨rfl, pairwise_stableSortBy _ _, fun v => filter_stableSortBy _ v _⟩

/-- C3 counterexample: a ragged data line with one value under a
two-candidate header parses to a row of length 1, not to a row padded
with 0 to the label count 2. -/
theorem claim3_counterexample :
    (parseCSV "Challenge,Created_At,Difficulty,A,B\nx,t,d,1").data = [[1]] ∧
    (parseCSV "Challenge,Created_At,Difficulty,A,B\nx,t,d,1").candidateCols = ["A", "B"] ∧
    ((parseCSV "Challenge,Created_At,Difficulty,A,B\nx,t,d,1").data.headD []).length ≠
      (parseCSV "Challenge,Created_At,Difficulty,A,B\nx,t,d,1").candidateCols.length := by decide

/-- C3 amended: the parser never fails on a ragged line, but missing
trailing fields are not materialized as 0: the parsed row keeps
exactly the fields present beyond the first three, so its length is
the field count minus three and can be shorter than the candidate
label sequence. -/
theorem claim3_amended_ragged_rows_stay_short (line : List Char) :
    (parseLine line).2.length = (splitFields ',' line).length - 3 := by
  simp [parseLine]

/-- C4 counterexample: blank input is not rejected; the parser
returns a complete result, with an empty matrix and a candidate
column list holding one empty label. -/
theorem claim4_counterexample :
    parseCSV "  \n  " = ⟨[], [], [""]⟩ ∧
    (parseCSV "  \n  ").candidateCols ≠ [] := by decide

/-- C4 amended: on every input that trims to nothing the parser does
not fail and raises no error (the source has no MalformedInputError):
it returns an empty matrix, empty row labels, and the single empty
string as candidate column list. -/
theorem claim4_amended_blank_input_not_rejected (s : String)
    (h : jsTrim s.toList = []) : parseCSV s = ⟨[], [], [""]⟩ := by
  unfold parseCSV
  rw [h]
  rfl

theorem claim4_witness :
    jsTrim ("".toList) = [] ∧ parseCSV "" = ⟨[], [], [""]⟩ :=
  ⟨by decide, claim4_amended_blank_input_not_rejected "" (by decide)⟩

/-- C5 counterexample: an input with a header but no data rows yields
an undefined overall rate (0 divided by 0 is NaN in the source,
modelled as none), not the sentinel 0. -/
theorem claim5_counterexample :
    (mainSummary "Challenge,Created_At,Difficulty,A").totalChallenges = 0 ∧
    (mainSummary "Challenge,Created_At,Difficulty,A").overallRate = none ∧
    (mainSummary "Challenge,Created_At,Difficulty,A").overallRate ≠ some 0 := by decide

/-- C5 amended: whenever the parsed matrix has 0 data rows or 0
candidate columns, the overall rate of line 65 divides by zero, which
is NaN or Infinity in the source (none in this model) and never the
defined value 0. -/
theorem claim5_amended_zero_rows_or_cols_rate_undefined (csv : String)
    (h : (parseCSV csv).data.length = 0 ∨ (parseCSV csv).candidateCols.length = 0) :
    (mainSummary csv).overallRate = none := by
  have hm : (mainSummary csv).overallRate = overallSuccessRate
      ((jsEntries (sortCandidatesByPerformance (parseCSV csv).data
        (parseCSV csv).candidateCols).candidateSums).foldl (fun s e => s + e.2) 0)
      (parseCSV csv).data.length (parseCSV csv).candidateCols.length := rfl
  rw [hm]
  unfold overallSuccessRate
  rcases h with h | h <;> simp [h]

theorem claim5_witness :
    ((parseCSV "Challenge,Created_At,Difficulty").data.length = 0 ∨
      (parseCSV "Challenge,Created_At,Difficulty").candidateCols.length = 0) ∧
    (mainSummary "Challenge,Created_At,Difficulty").overallRate = none :=
  ⟨by decide, claim5_amended_zero_rows_or_cols_rate_undefined _ (by decide)⟩

/-- C6: on the sample input the pipeline computes scores A = 1,
B = 0, C = 2, ascending order [B, A, C], reordered rows [0, 1, 1] and
[0, 0, 1], and the summary with 2 rows, 3 columns, 3 positive cells
and an overall rate of 50 percent. -/
theorem claim6_sample_scenario :
    parseCSV "Challenge,Created_At,Difficulty,A,B,C\nx,t,d,1,0,1\ny,t,d,0,0,1" =
      ⟨[[1, 0, 1], [0, 0, 1]], ["x", "y"], ["A", "B", "C"]⟩ ∧
    jsLookup (candidateSumsOf [[1, 0, 1], [0, 0, 1]] ["A", "B", "C"]) "A" = some 1 ∧
    jsLookup (candidateSumsOf [[1, 0, 1], [0, 0, 1]] ["A", "B", "C"]) "B" = some 0 ∧
    jsLookup (candidateSumsOf [[1, 0, 1], [0, 0, 1]] ["A", "B", "C"]) "C" = some 2 ∧
    (sortCandidatesByPerformance [[1, 0, 1], [0, 0, 1]] ["A", "B", "C"]).sortedCandidates =
      ["B", "A", "C"] ∧
    (sortCandidatesByPerformance [[1, 0, 1], [0, 0, 1]] ["A", "B", "C"]).sortedData =
      [[0, 1, 1], [0, 0, 1]] ∧
    mainSummary "Challenge,Created_At,Difficulty,A,B,C\nx,t,d,1,0,1\ny,t,d,0,0,1" =
      ⟨2, 3, 3, some 50⟩ := by
  refine ⟨by decide, by decide, by decide, by decide, by decide, by decide, ?_⟩
  have h : mainSummary "Challenge,Created_At,Difficulty,A,B,C\nx,t,d,1,0,1\ny,t,d,0,0,1" =
      ⟨2, 3, 3, overallSuccessRate 3 2 3⟩ := rfl
  rw [h]
  have h2 : overallSuccessRate 3 2 3 = some 50 := by norm_num [overallSuccessRate]
  rw [h2]

/-- C8 counterexample: with header A, Created_At, Difficulty,
Challenge, B the first three fields are not the three reserved names
and the reserved name Challenge recurs later, yet the number of
candidate labels (2) still equals the number of values per full row
(2): the necessity direction of the claim fails. -/
theorem claim8_counterexample :
    parseCSV "A,Created_At,Difficulty,Challenge,B\nx,t,d,1,2" =
      ⟨[[1, 2]], ["x"], ["A", "B"]⟩ ∧
    (parseCSV "A,Created_At,Difficulty,Challenge,B\nx,t,d,1,2").candidateCols.length =
      ((parseCSV "A,Created_At,Difficulty,Challenge,B\nx,t,d,1,2").data.headD []).length ∧
    (["A", "Created_At", "Difficulty"] : List String) ≠ reservedHeaders := by decide

/-- C8 amended: labels are selected by excluding reserved names
wherever they appear while row values are positional from field index
3, so for a full-length row the label count equals the value count
exactly when the header carries exactly three reserved-name fields,
counted with multiplicity at any positions; the condition of the
claim (first three fields exactly the reserved names, no later reuse)
is one such case but not the only one. -/
theorem claim8_amended_label_count_iff_three_reserved (headers : List String)
    (h : 3 ≤ headers.length) :
    (candidateColsOf headers).length = headers.length - 3 ↔
      headers.countP (fun c => reservedHeaders.contains c) = 3 := by
  have hconv : (fun (a : String) => decide ¬(reservedHeaders.contains a = true)) =
      (fun a => !(reservedHeaders.contains a)) := by
    funext a
    by_cases ha : reservedHeaders.contains a = true <;> simp [ha]
  have hsplit := List.length_eq_countP_add_countP
    (p := fun c => reservedHeaders.contains c) headers
  rw [hconv] at hsplit
  have hfil : (candidateColsOf headers).length =
      headers.countP (fun c => !(reservedHeaders.contains c)) :=
    (List.countP_eq_length_filter _ _).symm
  omega

theorem claim8_witness :
    3 ≤ (["Challenge", "Created_At", "Difficulty", "A"] : List String).length ∧
    ((candidateColsOf ["Challenge", "Created_At", "Difficulty", "A"]).length =
        (["Challenge", "Created_At", "Difficulty", "A"] : List String).length - 3 ↔
      (["Challenge", "Created_At", "Difficulty", "A"] : List String).countP
        (fun c => reservedHeaders.contains c) = 3) :=
  ⟨by decide, claim8_amended_label_count_iff_three_reserved _ (by decide)⟩

/-- C9: cell values are not clamped to 0 and 1: a field whose text
begins with a parseable integer stores that value (7 gives 7, -3
gives -3, 2abc gives 2), a field with no parseable prefix gives 0,
and such values flow unchanged into the scores, the solution total
and the rate. -/
theorem claim9_values_not_clamped :
    parseIntOr0 "7" = 7 ∧ parseIntOr0 "-3" = -3 ∧ parseIntOr0 "2abc" = 2 ∧
    parseIntOr0 "abc" = 0 ∧ parseIntOr0 "" = 0 ∧ parseIntOr0 "0" = 0 ∧
    (parseCSV "Challenge,Created_At,Difficulty,A\nx,t,d,7\ny,t,d,-3").data = [[7], [-3]] ∧
    jsLookup (candidateSumsOf [[7], [-3]] ["A"]) "A" = some 4 ∧
    (mainSummary "Challenge,Created_At,Difficulty,A\nx,t,d,7\ny,t,d,-3").totalSolutions = 4 ∧
    (mainSummary "Challenge,Created_At,Difficulty,A\nx,t,d,7\ny,t,d,-3").overallRate =
      some 200 := by
  refine ⟨by decide, by decide, by decide, by decide, by decide, by decide, by decide,
    by decide, by decide, ?_⟩
  have h : (mainSummary "Challenge,Created_At,Difficulty,A\nx,t,d,7\ny,t,d,-3").overallRate =
      overallSuccessRate 4 2 1 := rfl
  rw [h]
  norm_num [overallSuccessRate]

/-- C10 counterexample: with two columns both labelled L and row
values 1 and 2, the output has a single column L with the first
column value 1 appearing exactly once: nothing is duplicated, so the
claim that the first occurrence values are duplicated fails. -/
theorem claim10_counterexample :
    (sortCandidatesByPerformance [[1, 2]] ["L", "L"]).sortedData = [[1]] ∧
    (sortCandidatesByPerformance [[1, 2]] ["L", "L"]).sortedCandidates = ["L"] ∧
    (sortCandidatesByPerformance [[1, 2]] ["L", "L"]).candidateSums = [("L", 2)] ∧
    (sortCandidatesByPerformance [[1, 2]] ["L", "L"]).sortedCandidates.count "L" = 1 := by decide

/-- C10 amended: when two candidate columns share a label, the score
map merges them into one entry whose value is the later column sum;
the label appears exactly once in the sorted order, and reindexing
copies the first such column values for that single occurrence, so
the reordering is not a permutation: the later duplicate column is
dropped and the first occurrence values appear once, not
duplicated. -/
theorem claim10_amended_duplicate_labels_merge (data : List (List Int)) :
    (sortCandidatesByPerformance data ["L", "L"]).candidateSums = [("L", colSum data 1)] ∧
    (sortCandidatesByPerformance data ["L", "L"]).sortedCandidates = ["L"] ∧
    (sortCandidatesByPerformance data ["L", "L"]).sortedData =
      data.map (fun row => [row.getD 0 0]) := by
  have hsums : candidateSumsOf data ["L", "L"] = [("L", colSum data 1)] := by
    simp [candidateSumsOf, candidateSumsAux, jsObjectInsert]
  have hcands : (sortCandidatesByPerformance data ["L", "L"]).sortedCandidates = ["L"] := by
    show ((stableSortBy (fun e : String × Int => e.2)
      (jsEntries (candidateSumsOf data ["L", "L"]))).map Prod.fst) = ["L"]
    rw [hsums]
    rfl
  refine ⟨hsums, hcands, ?_⟩
  show data.map (fun row => (sortCandidatesByPerformance data ["L", "L"]).sortedCandidates.map
    (fun candidate => row.getD (["L", "L"].indexOf candidate) 0)) = _
  rw [hcands]
  rfl
